import Mathlib

/-!
Verification of the node-iridium-sbd modem driver against its
specification.  The JavaScript source (`index.js`, together with the
near-duplicate legacy copy shipped in the repository) is shallowly
embedded: byte buffers become `List Nat` with every entry a byte value
below 256, strings become `String` or `List Char`, and the
callback-driven control flow becomes explicit result values.
-/

namespace IridiumSBD

/-! ## Binary codec

The outbound framing lives inside `sendBinaryMessage`; the inbound
parsing lives inside `readBinaryMessage`. -/

/-- Arithmetic sum of all payload bytes, as accumulated by the loop
`for (i = 0; i < buffer.length; i++) { ob[i] = buffer[i]; sum += buffer[i] }`
in `sendBinaryMessage`. -/
def byteSum (p : List Nat) : Nat := p.foldl (fun s b => s + b) 0

/-- The framed write buffer `ob` built by `sendBinaryMessage`: the loop
copies the payload bytes unchanged (`ob[i] = buffer[i]`), then
`ob[buffer.length+1] = sum & 0xff; sum >>= 8; ob[buffer.length] = sum & 0xff`.
JavaScript `&` and `>>` coerce through 32-bit integers; for the byte
values stored here the extracted low and second bytes agree with the
`Nat` operations below for every byte sum that is exactly representable
in a JavaScript number. -/
def encodeWrite (p : List Nat) : List Nat :=
  p ++ [(byteSum p >>> 8) &&& 0xff, byteSum p &&& 0xff]

/-- Parsing of the `AT+SBDRB` response in `readBinaryMessage`:
`messageLength = ib.readUInt16BE(0)` and the payload is
`ib.copy(messageBuffer, 0, 2, messageLength + 2)` into a fresh buffer of
size `messageLength`.  `readUInt16BE(0)` throws when the blob is shorter
than two bytes, and when the blob carries fewer than `messageLength`
bytes after the prefix the fresh `allocUnsafe` buffer keeps unspecified
bytes; both underdetermined outcomes are modelled as `none`. -/
def decodeRead (blob : List Nat) : Option (List Nat) :=
  match blob with
  | b0 :: b1 :: rest =>
      let messageLength := b0 * 256 + b1
      if rest.length < messageLength then none
      else some (rest.take messageLength)
  | _ => none

/-- Big-endian 16-bit length prefix, as carried at the front of the
modem's binary read response blob (the wire format consumed by
`readBinaryMessage`). -/
def lenPrefixBE (n : Nat) : List Nat := [n / 256 % 256, n % 256]

/-- C1: for every payload of bytes, the framed binary write buffer has
length `len(p) + 2` and consists of the payload followed by the
big-endian low 16 bits of the byte sum; in particular payload
`[0x01, 0x02, 0x03]` gets trailer bytes `[0x00, 0x06]`. -/
theorem sbdwb_frame_checksum (p : List Nat) (hp : ∀ b ∈ p, b < 256) :
    (encodeWrite p).length = p.length + 2 ∧
    encodeWrite p = p ++ [byteSum p % 65536 / 256, byteSum p % 65536 % 256] ∧
    encodeWrite [1, 2, 3] = [1, 2, 3, 0x00, 0x06] := by
  have hland : ∀ x : Nat, x &&& 255 = x % 256 := fun x => by
    simpa using Nat.and_pow_two_sub_one_eq_mod x 8
  have hshift : byteSum p >>> 8 = byteSum p / 256 := by
    rw [Nat.shiftRight_eq_div_pow]
  refine ⟨by simp [encodeWrite], ?_, by decide⟩
  show p ++ [(byteSum p >>> 8) &&& 0xff, byteSum p &&& 0xff] = _
  rw [hshift, hland, hland]
  have h1 : byteSum p / 256 % 256 = byteSum p % 65536 / 256 := by omega
  have h2 : byteSum p % 256 = byteSum p % 65536 % 256 := by omega
  rw [h1, h2]

/-- Witness for `sbdwb_frame_checksum` at the concrete payload
`[0x01, 0x02, 0x03]`. -/
theorem sbdwb_frame_checksum_witness :
    (encodeWrite [1, 2, 3]).length = 3 + 2 ∧
    encodeWrite [1, 2, 3] =
      [1, 2, 3] ++ [byteSum [1, 2, 3] % 65536 / 256, byteSum [1, 2, 3] % 65536 % 256] ∧
    encodeWrite [1, 2, 3] = [1, 2, 3, 0x00, 0x06] := by
  have h := sbdwb_frame_checksum [1, 2, 3] (by decide)
  simpa using h

/-- C4 counterexample: feeding the first `len(p)` bytes of the framed
write buffer to `decodeRead` does not recover the payload.  For
`p = [1, 2, 3]` those bytes are `[1, 2, 3]` itself, so `decodeRead`
reads the length prefix `0x0102 = 258` and only one byte is available
after the prefix: the copy fills one byte of a 258-byte `allocUnsafe`
buffer, never reproducing `[1, 2, 3]`. -/
theorem decodeRead_write_frame_prefix_cex :
    decodeRead ((encodeWrite [1, 2, 3]).take 3) ≠ some [1, 2, 3] := by decide

/-- C4 (amended): `decodeRead` recovers the payload from the actual
binary read wire format, a two-byte big-endian length prefix followed by
the payload and its two checksum trailer bytes (exactly
`lenPrefixBE (len p) ++ encodeWrite p`); the checksum trailer is present
in the blob but never validated on decode. -/
theorem decodeRead_length_prefixed_roundtrip (p : List Nat)
    (hpos : 0 < p.length) (hlt : p.length < 65536) :
    decodeRead (lenPrefixBE p.length ++ encodeWrite p) = some p := by
  have hm : p.length / 256 % 256 * 256 + p.length % 256 = p.length := by omega
  have hrest : (encodeWrite p).length = p.length + 2 := by simp [encodeWrite]
  simp only [lenPrefixBE, List.cons_append, List.nil_append, decodeRead, hm]
  rw [if_neg (by omega), show encodeWrite p = p ++ [(byteSum p >>> 8) &&& 0xff,
    byteSum p &&& 0xff] from rfl, List.take_left' rfl]

/-- Witness for `decodeRead_length_prefixed_roundtrip` at the concrete
payload `[1, 2, 3]`. -/
theorem decodeRead_length_prefixed_roundtrip_witness :
    decodeRead (lenPrefixBE ([1, 2, 3] : List Nat).length ++ encodeWrite [1, 2, 3]) =
      some [1, 2, 3] :=
  decodeRead_length_prefixed_roundtrip [1, 2, 3] (by decide) (by decide)

/-! ## Framer, Line mode

The `readSBD` stream callback in its non-binary branch:
`iridium.data += chunk.toString('binary');
const parts = iridium.data.split('\n');
iridium.data = parts.pop();
parts.forEach(part => this.push(part))`. -/

/-- JavaScript `String.prototype.split('\n')` over the latin1-decoded
byte string, embedded on `List Char`.  It always returns at least one
segment and no segment contains the delimiter. -/
def splitNL : List Char → List (List Char)
  | [] => [[]]
  | c :: cs =>
    if c = '\n' then [] :: splitNL cs
    else
      match splitNL cs with
      | [] => [[c]]
      | p :: ps => (c :: p) :: ps

/-- JavaScript `Array.prototype.pop()` result on a nonempty array of
segments: the last element (the empty array case is unreachable because
`splitNL` never returns an empty array). -/
def lastD : List (List Char) → List Char
  | [] => []
  | [p] => p
  | _ :: p :: ps => lastD (p :: ps)

/-- One `readSBD` data callback in Line mode: returns the new remainder
(`iridium.data` after `parts.pop()`) and the emitted frames (the pushed
`parts`). -/
def feedLine (rem chunk : List Char) : List Char × List (List Char) :=
  (lastD (splitNL (rem ++ chunk)), (splitNL (rem ++ chunk)).dropLast)

/-- Feeding a sequence of chunks through `readSBD`, accumulating every
emitted frame. -/
def feedAll (rem : List Char) : List (List Char) → List Char × List (List Char)
  | [] => (rem, [])
  | c :: cs =>
      ((feedAll (feedLine rem c).1 cs).1,
       (feedLine rem c).2 ++ (feedAll (feedLine rem c).1 cs).2)

/-- Prepending a segment onto the head of a segment list, the shape in
which splitting a concatenation decomposes. -/
def consHead (l : List Char) : List (List Char) → List (List Char)
  | [] => [l]
  | p :: ps => (l ++ p) :: ps

theorem splitNL_ne_nil (s : List Char) : splitNL s ≠ [] := by
  cases s with
  | nil => simp [splitNL]
  | cons c cs =>
      by_cases hc : c = '\n'
      · simp [splitNL, hc]
      · simp only [splitNL, if_neg hc]
        cases splitNL cs <;> simp

theorem consHead_ne_nil (l : List Char) (S : List (List Char)) : consHead l S ≠ [] := by
  cases S <;> simp [consHead]

theorem dropLast_append_ne {α : Type} (u v : List α) (h : v ≠ []) :
    (u ++ v).dropLast = u ++ v.dropLast := by
  induction u with
  | nil => rfl
  | cons a u ih =>
      have hne : u ++ v ≠ [] := by
        cases u <;> simp_all
      cases hu : u ++ v with
      | nil => exact absurd hu hne
      | cons b w =>
          simp only [List.cons_append, hu, List.dropLast_cons₂]
          rw [← hu, ih]

theorem lastD_cons_of_ne (p : List Char) (S : List (List Char)) (h : S ≠ []) :
    lastD (p :: S) = lastD S := by
  cases S with
  | nil => exact absurd rfl h
  | cons q qs => rfl

theorem lastD_append (u v : List (List Char)) (h : v ≠ []) :
    lastD (u ++ v) = lastD v := by
  induction u with
  | nil => rfl
  | cons p ps ih =>
      have hne : ps ++ v ≠ [] := by
        cases ps <;> simp_all
      rw [List.cons_append, lastD_cons_of_ne _ _ hne, ih]

theorem noNL_of_mem_splitNL (s : List Char) (l : List Char)
    (h : l ∈ splitNL s) : '\n' ∉ l := by
  induction s generalizing l with
  | nil =>
      simp only [splitNL, List.mem_singleton] at h
      simp [h]
  | cons c cs ih =>
      by_cases hc : c = '\n'
      · simp only [splitNL, if_pos hc, List.mem_cons] at h
        rcases h with h | h
        · simp [h]
        · exact ih l h
      · simp only [splitNL, if_neg hc] at h
        cases hs : splitNL cs with
        | nil => exact absurd hs (splitNL_ne_nil cs)
        | cons p ps =>
            rw [hs, List.mem_cons] at h
            rcases h with h | h
            · subst h
              intro hmem
              rcases List.mem_cons.mp hmem with h | h
              · exact hc h.symm
              · exact ih p (by rw [hs]; exact List.mem_cons_self _ _) h
            · exact ih l (by rw [hs]; exact List.mem_cons_of_mem _ h)

theorem splitNL_of_noNL (s : List Char) (h : '\n' ∉ s) : splitNL s = [s] := by
  induction s with
  | nil => rfl
  | cons c cs ih =>
      have hc : c ≠ '\n' := fun hc => h (by simp [hc])
      have hcs : '\n' ∉ cs := fun hm => h (List.mem_cons_of_mem _ hm)
      simp only [splitNL, if_neg hc, ih hcs]

theorem lastD_mem (S : List (List Char)) (h : S ≠ []) : lastD S ∈ S := by
  induction S with
  | nil => exact absurd rfl h
  | cons p ps ih =>
      cases ps with
      | nil => simp [lastD]
      | cons q qs =>
          rw [lastD_cons_of_ne _ _ (by simp)]
          exact List.mem_cons_of_mem _ (ih (by simp))

theorem splitNL_cons_nl (cs : List Char) : splitNL ('\n' :: cs) = [] :: splitNL cs := by
  simp [splitNL]

theorem splitNL_cons_other (c : Char) (cs : List Char) (hc : c ≠ '\n')
    (p : List Char) (ps : List (List Char)) (hp : splitNL cs = p :: ps) :
    splitNL (c :: cs) = (c :: p) :: ps := by
  simp only [splitNL, if_neg hc, hp]

theorem splitNL_append (xs ys : List Char) :
    splitNL (xs ++ ys) = (splitNL xs).dropLast ++ consHead (lastD (splitNL xs)) (splitNL ys) := by
  induction xs with
  | nil =>
      obtain ⟨q, qs, hq⟩ := List.exists_cons_of_ne_nil (splitNL_ne_nil ys)
      simp [splitNL, hq, consHead, lastD]
  | cons c cs ih =>
      by_cases hc : c = '\n'
      · subst hc
        obtain ⟨p, ps, hp⟩ := List.exists_cons_of_ne_nil (splitNL_ne_nil cs)
        rw [List.cons_append, splitNL_cons_nl, splitNL_cons_nl, ih, hp,
          List.dropLast_cons₂, lastD_cons_of_ne _ (p :: ps) (by simp),
          List.cons_append]
      · obtain ⟨p, ps, hp⟩ := List.exists_cons_of_ne_nil (splitNL_ne_nil cs)
        cases ps with
        | nil =>
            obtain ⟨q, qs, hq⟩ := List.exists_cons_of_ne_nil (splitNL_ne_nil ys)
            have hA : splitNL (cs ++ ys) = (p ++ q) :: qs := by
              rw [ih, hp, hq]
              simp [lastD, consHead]
            rw [List.cons_append, splitNL_cons_other c _ hc _ _ hA,
              splitNL_cons_other c _ hc _ _ hp]
            simp [lastD, consHead, hq]
        | cons r rs =>
            have hA : splitNL (cs ++ ys) =
                p :: ((r :: rs).dropLast ++ consHead (lastD (r :: rs)) (splitNL ys)) := by
              rw [ih, hp, List.dropLast_cons₂,
                lastD_cons_of_ne _ (r :: rs) (by simp), List.cons_append]
            rw [List.cons_append, splitNL_cons_other c _ hc _ _ hA,
              splitNL_cons_other c _ hc _ _ hp,
              List.dropLast_cons₂, lastD_cons_of_ne _ (r :: rs) (by simp),
              List.cons_append]

theorem splitNL_lastD_noNL (s : List Char) : '\n' ∉ lastD (splitNL s) :=
  noNL_of_mem_splitNL s _ (lastD_mem _ (splitNL_ne_nil s))

theorem feedLine_append (st a b : List Char) :
    feedLine st (a ++ b) =
      ((feedLine (feedLine st a).1 b).1,
       (feedLine st a).2 ++ (feedLine (feedLine st a).1 b).2) := by
  unfold feedLine
  have h1 : st ++ (a ++ b) = (st ++ a) ++ b := (List.append_assoc st a b).symm
  have h2 : splitNL (lastD (splitNL (st ++ a)) ++ b)
      = consHead (lastD (splitNL (st ++ a))) (splitNL b) := by
    rw [splitNL_append, splitNL_of_noNL _ (splitNL_lastD_noNL (st ++ a))]
    simp [lastD]
  rw [h1, splitNL_append (st ++ a) b, h2]
  refine Prod.ext ?_ ?_
  · exact lastD_append _ _ (consHead_ne_nil _ _)
  · exact dropLast_append_ne _ _ (consHead_ne_nil _ _)

theorem feedAll_eq_single (st : List Char) (chunks : List (List Char))
    (h : chunks ≠ []) : feedAll st chunks = feedLine st chunks.flatten := by
  induction chunks generalizing st with
  | nil => exact absurd rfl h
  | cons c cs ih =>
      cases cs with
      | nil => simp [feedAll, List.flatten]
      | cons d ds =>
          rw [List.flatten_cons, feedLine_append st c ((d :: ds).flatten),
            ← ih (feedLine st c).1 (by simp)]
          rfl

/-- C6: in Line mode the emitted frames and the retained remainder
depend only on the concatenation of the bytes fed, not on the chunk
boundaries, and every complete newline-delimited segment keeps its
preceding carriage return; in particular feeding the bytes of
`"+AREG:2,0\r\nOK\r\n"` as two chunks yields exactly the frames
`"+AREG:2,0\r"` and `"OK\r"`. -/
theorem readSBD_line_chunk_invariant
    (st : List Char) (chunks1 chunks2 : List (List Char))
    (h1 : chunks1 ≠ []) (h2 : chunks2 ≠ []) (hj : chunks1.flatten = chunks2.flatten) :
    feedAll st chunks1 = feedAll st chunks2 ∧
    feedAll [] ["+AREG:2,0\r\n".toList, "OK\r\n".toList] =
      ([], ["+AREG:2,0\r".toList, "OK\r".toList]) := by
  refine ⟨?_, by decide⟩
  rw [feedAll_eq_single st chunks1 h1, feedAll_eq_single st chunks2 h2, hj]

/-- Witness for `readSBD_line_chunk_invariant`: the spec example fed as
two chunks agrees with the same bytes fed as one chunk. -/
theorem readSBD_line_chunk_invariant_witness :
    feedAll [] ["+AREG:2,0\r\n".toList, "OK\r\n".toList] =
      feedAll [] ["+AREG:2,0\r\nOK\r\n".toList] ∧
    feedAll [] ["+AREG:2,0\r\n".toList, "OK\r\n".toList] =
      ([], ["+AREG:2,0\r".toList, "OK\r".toList]) :=
  readSBD_line_chunk_invariant [] ["+AREG:2,0\r\n".toList, "OK\r\n".toList]
    ["+AREG:2,0\r\nOK\r\n".toList] (by decide) (by decide) (by decide)

/-! ## Framer, Binary mode

State `iridium.binary`: a fixed `Buffer.allocUnsafe(512)` scratch buffer
and `bufferCounter`.  Each chunk is appended by
`binary.bufferCounter += chunk.copy(binary.buffer, binary.bufferCounter)`;
the deadline timer flushes `binary.buffer` truncated at
`bufferCounter` into one frame and resets the counter. -/

/-- The `iridium.binary` scratch state: `buffer` models the fixed
512-byte `allocUnsafe` scratch area (its initial contents are
arbitrary), `bufferCounter` the write offset. -/
structure BinaryState where
  buffer : List Nat
  bufferCounter : Nat
deriving DecidableEq

/-- One binary-mode chunk arrival:
`binary.bufferCounter += chunk.copy(binary.buffer, binary.bufferCounter)`.
Node `Buffer.copy` writes `min(chunk.length, target.length - targetStart)`
bytes at `targetStart` and returns that count. -/
def binaryCopy (st : BinaryState) (chunk : List Nat) : BinaryState :=
  let n := min chunk.length (st.buffer.length - st.bufferCounter)
  { buffer := st.buffer.take st.bufferCounter ++ chunk.take n
        ++ st.buffer.drop (st.bufferCounter + n)
    bufferCounter := st.bufferCounter + n }

/-- The deadline-timer flush:
`data = Buffer.allocUnsafe(bufferCounter); binary.buffer.copy(data)`
emits the first `bufferCounter` bytes as one frame and resets the
counter (`binary.bufferCounter = 0`). -/
def binaryFlush (st : BinaryState) : List Nat × BinaryState :=
  (st.buffer.take st.bufferCounter, { st with bufferCounter := 0 })

theorem binaryCopy_inv (st : BinaryState) (c : List Nat)
    (h1 : st.bufferCounter ≤ 512) (h2 : st.buffer.length = 512) :
    (binaryCopy st c).bufferCounter ≤ 512 ∧ (binaryCopy st c).buffer.length = 512 := by
  constructor
  · simp only [binaryCopy, h2]
    omega
  · simp only [binaryCopy, List.length_append, List.length_take, List.length_drop, h2]
    omega

theorem foldl_binaryCopy_inv (chunks : List (List Nat)) (st : BinaryState)
    (h1 : st.bufferCounter ≤ 512) (h2 : st.buffer.length = 512) :
    (chunks.foldl binaryCopy st).bufferCounter ≤ 512 ∧
    (chunks.foldl binaryCopy st).buffer.length = 512 := by
  induction chunks generalizing st with
  | nil => exact ⟨h1, h2⟩
  | cons c cs ih =>
      obtain ⟨g1, g2⟩ := binaryCopy_inv st c h1 h2
      exact ih (binaryCopy st c) g1 g2

/-- C9: starting from the fresh binary-mode state (counter 0, 512-byte
scratch buffer), the scratch counter never exceeds 512 whatever chunk
sequence arrives; once the buffer is full a further chunk advances the
counter by zero and leaves the scratch state unchanged (its bytes are
silently dropped), and the single flushed frame holds at most 512
bytes. -/
theorem binary_scratch_counter_bounded (init full : BinaryState)
    (chunks : List (List Nat)) (extra : List Nat)
    (hc : init.bufferCounter = 0) (hlen : init.buffer.length = 512)
    (hf : full.bufferCounter = 512) (hflen : full.buffer.length = 512) :
    (chunks.foldl binaryCopy init).bufferCounter ≤ 512 ∧
    binaryCopy full extra = full ∧
    (binaryFlush (chunks.foldl binaryCopy init)).1.length ≤ 512 := by
  obtain ⟨g1, g2⟩ := foldl_binaryCopy_inv chunks init (by omega) hlen
  refine ⟨g1, ?_, ?_⟩
  · have hn : min extra.length (full.buffer.length - full.bufferCounter) = 0 := by
      simp [hf, hflen]
    simp only [binaryCopy, hn, List.take_zero, List.append_nil, Nat.add_zero]
    cases full with
    | mk buffer bufferCounter =>
        simp only at hf hflen ⊢
        subst hf
        simp [List.take_of_length_le (le_of_eq hflen), List.drop_eq_nil_of_le (le_of_eq hflen)]
  · simp only [binaryFlush, List.length_take]
    omega

/-- Witness for `binary_scratch_counter_bounded` with a zeroed scratch
buffer, two 300-byte chunks (the second can only partly fit) and a
further chunk arriving full. -/
theorem binary_scratch_counter_bounded_witness :
    ((List.replicate 300 7 :: [List.replicate 300 9]).foldl binaryCopy
        ⟨List.replicate 512 0, 0⟩).bufferCounter ≤ 512 ∧
    binaryCopy ⟨List.replicate 512 3, 512⟩ [1, 2] = ⟨List.replicate 512 3, 512⟩ ∧
    (binaryFlush ((List.replicate 300 7 :: [List.replicate 300 9]).foldl binaryCopy
        ⟨List.replicate 512 0, 0⟩)).1.length ≤ 512 :=
  binary_scratch_counter_bounded ⟨List.replicate 512 0, 0⟩ ⟨List.replicate 512 3, 512⟩
    (List.replicate 300 7 :: [List.replicate 300 9]) [1, 2]
    rfl (by simp only [List.length_replicate]) rfl (by simp only [List.length_replicate])

/-! ## Command Engine

The `AT` function and the `parser.on('data', ...)` handler installed by
`open`.  The response-matching patterns are the concrete regular
expressions used by the source. -/

/-- The regular expressions the driver passes to `AT`/`ATS` or holds in
its tables, with their matching functions below. -/
inductive Pat
  | ok        -- `/^OK\r/`
  | all       -- `/.*/`
  | ready     -- `/READY/`
  | sbdixKeep -- `/\+SBDIX/`
  | cievEnd   -- `/\+CIEV:0,[^0]/`
  | errorPat  -- `/ERROR/`, the single entry of `iridium.errors`
deriving DecidableEq

/-- Containment of a literal character sequence anywhere in the text
(unanchored regex literal match). -/
def containsSeq (needle : List Char) : List Char → Bool
  | [] => needle.isPrefixOf []
  | c :: cs => needle.isPrefixOf (c :: cs) || containsSeq needle cs

/-- Match of `/\+CIEV:0,[^0]/` anywhere in the text: the literal
`+CIEV:0,` followed by one character other than `0`. -/
def cievMatch : List Char → Bool
  | [] => false
  | c :: cs =>
      (("+CIEV:0,".toList).isPrefixOf (c :: cs) &&
        match (c :: cs).drop 8 with
        | d :: _ => d ≠ '0'
        | [] => false) ||
      cievMatch cs

/-- RegExp.test for each pattern. -/
def testPat : Pat → List Char → Bool
  | .ok, s => ("OK\r".toList).isPrefixOf s
  | .all, _ => true
  | .ready, s => containsSeq ("READY".toList) s
  | .sbdixKeep, s => containsSeq ("+SBDIX".toList) s
  | .cievEnd, s => cievMatch s
  | .errorPat, s => containsSeq ("ERROR".toList) s

/-- Test of the unsolicited pattern `/^SBDRING/`. -/
def isSBDRING (s : List Char) : Bool := ("SBDRING".toList).isPrefixOf s

/-- Test of the unsolicited pattern `/^\+AREG/`. -/
def isAREG (s : List Char) : Bool := ("+AREG".toList).isPrefixOf s

/-- The module-level command-correlation state: `er` and `kr` hold the
end and keep patterns of the in-flight command (`none` embeds both the
JavaScript `undefined` of an idle engine and the literal `false` passed
for binary reads), `df` records whether the completion-callback slot
holds a function, and `buffer` is `iridium.buffer`. -/
structure EngineState where
  er : Option Pat
  kr : Option Pat
  df : Bool
  buffer : List Char
deriving DecidableEq

/-- Observable actions the data handler can perform. -/
inductive EngEvent
  | invokeCompletion (err : Option Pat) (text : List Char)  -- `df(err, text)`
  | unsolicitedRing                                          -- `sbdring()`
  | unsolicitedAreg (line : List Char)                       -- `areg(line)`
deriving DecidableEq

/-- Outcome of one `parser.on('data', ...)` invocation: either the
handler threw a TypeError (it applied the absent completion callback),
or it finished, having performed the listed events and left the given
state.  Logging is elided. -/
inductive HandlerResult
  | typeError
  | done (events : List EngEvent) (next : EngineState)
deriving DecidableEq

/-- The `parser.on('data', ...)` handler of `open`, following the legacy
copy in which completion really clears `df`/`er` (in `index.js` the
`delete(df)`/`delete(er)` statements are no-ops on `let` bindings, so
completion leaves both set; the branch structure is identical).  In
order: the no-end-pattern branch delivers the frame straight to the
callback; unsolicited patterns dispatch and stop; an error line
completes the command with the error pattern and clears the buffer;
otherwise the frame is appended when it passes the keep pattern and the
end pattern completes the exchange.  Any branch that applies `df` while
the slot is empty throws a TypeError. -/
def onFrame (st : EngineState) (data : List Char) : HandlerResult :=
  match st.er with
  | none =>
      if st.df then
        .done [.invokeCompletion none data] { st with df := false }
      else .typeError
  | some erPat =>
      if isSBDRING data then .done [.unsolicitedRing] st
      else if isAREG data then .done [.unsolicitedAreg data] st
      else if testPat .errorPat data then
        if st.df then
          .done [.invokeCompletion (some .errorPat) st.buffer]
            { st with buffer := [], df := false, er := none }
        else .typeError
      else
        let buf1 := if (match st.kr with
          | none => true
          | some k => testPat k data) then st.buffer ++ data ++ ['\n'] else st.buffer
        if testPat erPat data then
          if st.df then
            .done [.invokeCompletion none buf1]
              { st with buffer := [], df := false, er := none }
          else .typeError
        else .done [] { st with buffer := buf1 }

/-- C7 counterexample: with no command pending (`er` unset, completion
slot empty) the handler does not silently discard the frame `OK\r`: it
takes the no-end-pattern branch, applies the absent callback and throws
a TypeError, which is a different outcome from the claimed discard. -/
theorem onFrame_no_pending_cex :
    onFrame ⟨none, none, false, []⟩ ("OK\r".toList) = HandlerResult.typeError ∧
    HandlerResult.typeError ≠ HandlerResult.done [] ⟨none, none, false, []⟩ := by
  exact ⟨rfl, by decide⟩

/-- C7 (amended): for every frame delivered while no command is pending
(end pattern unset and completion slot empty), the handler throws a
TypeError by applying the absent callback; consequently no completion
callback runs and the response buffer is not modified, but the frame is
not silently discarded. -/
theorem onFrame_no_pending_raises (st : EngineState) (data : List Char)
    (her : st.er = none) (hdf : st.df = false) :
    onFrame st data = HandlerResult.typeError := by
  cases st with
  | mk er kr df buffer =>
      simp only at her hdf
      subst her
      subst hdf
      simp [onFrame]

/-- Witness for `onFrame_no_pending_raises` on an idle engine receiving
the frame `OK\r`. -/
theorem onFrame_no_pending_raises_witness :
    onFrame ⟨none, some Pat.all, false, []⟩ ("OK\r".toList) = HandlerResult.typeError :=
  onFrame_no_pending_raises ⟨none, some Pat.all, false, []⟩ ("OK\r".toList) rfl rfl

/-! ## Command Engine timeout

`AT` arms `tf = setTimeout(handler, timeout)` when the effective timeout
is positive.  The two source variants install different handlers. -/

/-- Effects performed by the body of a timeout handler. -/
inductive ATEffect
  | log (msg : String)
  | callDatafunction (err : Option String) (text : Option String)
deriving DecidableEq

/-- Tests whether an effect is an invocation of the completion callback. -/
def isCallEffect : ATEffect → Bool
  | .callDatafunction _ _ => true
  | _ => false

/-- Tests whether an effect invokes the completion callback with a
defined (non-undefined) error value. -/
def callsWithError : ATEffect → Bool
  | .callDatafunction (some _) _ => true
  | _ => false

/-- Timeout handler armed by `AT` in the legacy copy: it only logs; the
line `datafunction('TIMEOUT')` is commented out in the source. -/
def timeoutHandlerLegacy (command : String) : List ATEffect :=
  [.log ("Sending a timeout event for command " ++ command)]

/-- Timeout handler armed by `AT` in `index.js`: it logs and then calls
`datafunction()` with no arguments, so the callback receives an
undefined error and undefined text. -/
def timeoutHandlerCurrent (command : String) : List ATEffect :=
  [.log ("Sending a timeout event for command " ++ command),
   .callDatafunction none none]

/-- Effective timeout of `AT`:
`if (!timeout) timeout = iridium.globals.defaultTimeout` (60000), and a
timer is armed only when `timeout > 0` (`none` embeds an absent
argument, `some 0` the falsy zero). -/
def effectiveTimeout : Option Int → Int
  | none => 60000
  | some t => if t = 0 then 60000 else t

/-- Whether `AT` arms the timeout timer at all. -/
def timerArmed (t : Option Int) : Bool := 0 < effectiveTimeout t

/-- C3 counterexample: in `index.js` a positive command timeout is
armed, and when it fires the handler does invoke the completion
callback (`datafunction()` on the line after the log), so the claim
that the timeout handler never invokes the callback fails on the
shipped `AT`. -/
theorem at_timeout_invokes_callback_cex :
    timerArmed (some 2000) = true ∧
    (timeoutHandlerCurrent "AT+SBDIX").any isCallEffect = true := by
  exact ⟨rfl, rfl⟩

/-- C3 (amended): when an armed timeout fires, the firing is logged in
both source variants; the legacy handler stops there and never invokes
the completion callback, while the `index.js` handler then invokes the
callback with no arguments — in neither variant is the callback invoked
with a defined timeout-error value. -/
theorem at_timeout_handler_effects (command : String) :
    (timeoutHandlerLegacy command).contains
      (.log ("Sending a timeout event for command " ++ command)) = true ∧
    (timeoutHandlerCurrent command).contains
      (.log ("Sending a timeout event for command " ++ command)) = true ∧
    (timeoutHandlerLegacy command).any isCallEffect = false ∧
    (timeoutHandlerCurrent command).contains (.callDatafunction none none) = true ∧
    (timeoutHandlerLegacy command).any callsWithError = false ∧
    (timeoutHandlerCurrent command).any callsWithError = false := by
  simp [timeoutHandlerLegacy, timeoutHandlerCurrent, isCallEffect, callsWithError]

/-! ## Session state machine

`initiateSession` issues `AT+SBDIX`, parses the six-field numeric
session-status line with
`text.match(/\+SBDIX: (\d+), (\d+), (\d+), (\d+), (\d+), (\d+)/)` and
dispatches on the fields. -/

/-- The `state` object threaded through `sendMessage` /
`sendBinaryMessage` / `initiateSession`: the payload (a text payload is
its byte sequence), the `binaryMessage` flag, the retry counter
`failCount`, the `maxTries` field (0 embeds an absent field, which the
JavaScript `state.maxTries || 3` defaults to 3) and the `maxWait`
network-wait bound. -/
structure SessionState where
  message : List Nat
  binaryMessage : Bool
  failCount : Nat
  maxTries : Nat
  maxWait : Option Int
deriving DecidableEq

/-- Outcome of the `AT+SBDIX` response handler in `initiateSession`.
`retryAfterClear` and `namedFailureAfterClear` both issue the
clear-outbound-buffer command `AT+SBDD0` first (via `clearMOBuffers`);
the retry then resubmits `next` through `sendBinaryMessage` when
`viaBinary` is set, otherwise through `sendMessage`.  `finishWith` is
`finishSession`: the clear-outbound-buffer command followed by the
original callback with the given sequence number.  `throwRefError`
models a thrown ReferenceError: no command is issued and no callback is
invoked. -/
inductive SessionResult
  | retryAfterClear (next : SessionState) (viaBinary : Bool)
  | namedFailureAfterClear (msg : String)
  | finishWith (momsn : Option Nat)
  | readBinaryThenFinish (mtqueued : Nat) (momsn : Nat)
  | throwRefError (name : String)
deriving DecidableEq

/-- Greedy run of ASCII digits, the `(\d+)` atom. -/
def takeDigits : List Char → List Char × List Char
  | [] => ([], [])
  | c :: cs =>
      if c.isDigit then
        ((takeDigits cs).1.cons c, (takeDigits cs).2)
      else ([], c :: cs)

/-- Numeric value of a digit run (decimal, as JavaScript coerces the
captured digit strings). -/
def digitsVal (ds : List Char) : Nat :=
  ds.foldl (fun n c => n * 10 + (c.toNat - 48)) 0

/-- Greedy nonempty digit match returning its value and the rest. -/
def matchNum (s : List Char) : Option (Nat × List Char) :=
  match takeDigits s with
  | ([], _) => none
  | (ds, rest) => some (digitsVal ds, rest)

/-- Literal match: strips `lit` off the front of `s`. -/
def stripLit : List Char → List Char → Option (List Char)
  | [], s => some s
  | _ :: _, [] => none
  | l :: ls, c :: cs => if c = l then stripLit ls cs else none

/-- The regex `\+SBDIX: (\d+), (\d+), (\d+), (\d+), (\d+), (\d+)`
anchored at the head of `s` (greedy digit runs followed by the literal
`, ` never need backtracking, so this equals the regex semantics). -/
def matchSBDIXAt (s : List Char) : Option (Nat × Nat × Nat × Nat × Nat × Nat) := do
  let s ← stripLit ("+SBDIX: ".toList) s
  let (n1, s) ← matchNum s
  let s ← stripLit (", ".toList) s
  let (n2, s) ← matchNum s
  let s ← stripLit (", ".toList) s
  let (n3, s) ← matchNum s
  let s ← stripLit (", ".toList) s
  let (n4, s) ← matchNum s
  let s ← stripLit (", ".toList) s
  let (n5, s) ← matchNum s
  let s ← stripLit (", ".toList) s
  let (n6, _) ← matchNum s
  return (n1, n2, n3, n4, n5, n6)

/-- Leftmost match of the session-status regex anywhere in the text,
the semantics of `text.match(...)` with its captures. -/
def findSBDIX : List Char → Option (Nat × Nat × Nat × Nat × Nat × Nat)
  | [] => none
  | c :: cs => (matchSBDIXAt (c :: cs)).orElse (fun _ => findSBDIX cs)

/-- Dispatch of `initiateSession` on the parsed fields
`(status, momsn, mtstatus, mtmsn, mtlen, mtqueued)`.  The string
comparisons `status <= 4`, `status == 18`, `status == 32`,
`mtstatus == 0`, `mtstatus == 1` coerce the captured digit strings
numerically.  Logging (including the `mtqueued > 0` message) is
elided; the `mtstatus` values other than 0 and 1 log and fall through
to `finishSession` exactly like `mtstatus == 0`. -/
def handleSBDIXParsed (st : SessionState) (status momsn mtstatus mtqueued : Nat) :
    SessionResult :=
  let maxTries := if st.maxTries = 0 then 3 else st.maxTries
  if status ≤ 4 then
    if mtstatus = 0 then .finishWith (some momsn)
    else if mtstatus = 1 then .readBinaryThenFinish mtqueued momsn
    else .finishWith (some momsn)
  else if status = 18 then
    if st.failCount < maxTries then
      .retryAfterClear { st with failCount := st.failCount + 1 } st.binaryMessage
    else .namedFailureAfterClear "radio failure"
  else if status = 32 then
    if st.failCount < maxTries then
      .retryAfterClear { st with failCount := st.failCount + 1 } st.binaryMessage
    else .namedFailureAfterClear "network failure"
  else
    if st.failCount < maxTries then
      .retryAfterClear { st with failCount := st.failCount + 1 } st.binaryMessage
    else .namedFailureAfterClear "unknown failure"

/-- The whole `AT+SBDIX` response handler: parse, then dispatch.  When
the regex does not match (`m` is null), the source logs and evaluates
`iridium.finishSession(callback, momsn)` — but `momsn` is a `const`
declared inside the `if (m && m.length)` block, so in the `else` branch
the identifier is unresolved and evaluating the argument throws
`ReferenceError: momsn is not defined` before `finishSession` is
entered. -/
def initiateSessionResponse (st : SessionState) (text : String) : SessionResult :=
  match findSBDIX text.toList with
  | some (status, momsn, mtstatus, _mtmsn, _mtlen, mtqueued) =>
      handleSBDIXParsed st status momsn mtstatus mtqueued
  | none => .throwRefError "momsn"

/-- C2: for a request with `failCount = 0` and the default retry ceiling
(`maxTries` absent, so 3), a session-status of 18 clears the outbound
buffers and resubmits the identical payload in the same mode with
`failCount` incremented, three times over; the fourth evaluation, at
`failCount = 3`, does not resubmit and invokes the caller with the
failure `radio failure`.  The last conjunct runs the first step through
the full response-text parser. -/
theorem sbdix_radio_failure_retry_policy (msg : List Nat) (b : Bool) (mw : Option Int)
    (momsn mtstatus mtqueued : Nat) :
    handleSBDIXParsed ⟨msg, b, 0, 0, mw⟩ 18 momsn mtstatus mtqueued =
      .retryAfterClear ⟨msg, b, 1, 0, mw⟩ b ∧
    handleSBDIXParsed ⟨msg, b, 1, 0, mw⟩ 18 momsn mtstatus mtqueued =
      .retryAfterClear ⟨msg, b, 2, 0, mw⟩ b ∧
    handleSBDIXParsed ⟨msg, b, 2, 0, mw⟩ 18 momsn mtstatus mtqueued =
      .retryAfterClear ⟨msg, b, 3, 0, mw⟩ b ∧
    handleSBDIXParsed ⟨msg, b, 3, 0, mw⟩ 18 momsn mtstatus mtqueued =
      .namedFailureAfterClear "radio failure" ∧
    initiateSessionResponse ⟨msg, b, 0, 0, mw⟩ "+SBDIX: 18, 5, 0, 0, 0, 0\n" =
      .retryAfterClear ⟨msg, b, 1, 0, mw⟩ b := by
  have hfind : findSBDIX ("+SBDIX: 18, 5, 0, 0, 0, 0\n".toList) =
      some (18, 5, 0, 0, 0, 0) := by decide
  have hstep : initiateSessionResponse ⟨msg, b, 0, 0, mw⟩ "+SBDIX: 18, 5, 0, 0, 0, 0\n" =
      handleSBDIXParsed ⟨msg, b, 0, 0, mw⟩ 18 5 0 0 := by
    unfold initiateSessionResponse
    rw [hfind]
  refine ⟨?_, ?_, ?_, ?_, ?_⟩ <;>
    simp [handleSBDIXParsed, hstep]

/-- C8 counterexample: on the response text `OK` (no session-status
line) the handler throws the ReferenceError instead of finishing: the
result differs from a finish with an undefined sequence number, so the
clear-outbound-buffer command is not issued and the caller's callback
is not invoked. -/
theorem sbdix_parse_failure_cex :
    initiateSessionResponse ⟨[], false, 0, 0, none⟩ "OK\r\n" =
      SessionResult.throwRefError "momsn" ∧
    SessionResult.throwRefError "momsn" ≠ SessionResult.finishWith none := by
  exact ⟨by decide, by decide⟩

/-- C8 (amended): whenever the session-initiation response text does not
match the six-field numeric session-status line, no retry occurs and
the retry counter is not consulted, but the session is not finished
either: evaluating the out-of-scope `momsn` in
`finishSession(callback, momsn)` throws a ReferenceError, so the
clear-outbound-buffer command is not issued and the caller's callback
is never invoked. -/
theorem sbdix_parse_failure_throws (st : SessionState) (text : String)
    (h : findSBDIX text.toList = none) :
    initiateSessionResponse st text = SessionResult.throwRefError "momsn" := by
  unfold initiateSessionResponse
  rw [h]

/-- Witness for `sbdix_parse_failure_throws` on the response text
`OK`. -/
theorem sbdix_parse_failure_throws_witness :
    initiateSessionResponse ⟨[], false, 0, 0, none⟩ "OK\r\n" =
      SessionResult.throwRefError "momsn" :=
  sbdix_parse_failure_throws ⟨[], false, 0, 0, none⟩ "OK\r\n" (by decide)

/-! ## Mailbox single-flight lock

`mailboxCheck`, `mailboxSend` and the completion handler installed by
`mailboxSend` on `sendBinaryMessage`. -/

/-- The mailbox fields of the `iridium` object. -/
structure MailboxState where
  lock : Nat
  pending : Nat
  c_attempt : Nat
deriving DecidableEq

/-- Externally visible actions of the mailbox layer. -/
inductive MbEffect
  | issueCommand (cmd : String)   -- a command handed to the Command Engine now
  | scheduleCheck (delayMs : Nat) -- `setTimeout(() => sendMessage({message:''}), delay)`
  | callbackOk (momsn : Nat)      -- `callback(false, momsn)`
  | callbackErr (msg : String)    -- `callback({error: msg})`
deriving DecidableEq

/-- The first command written by `sendMessage`:
`state.message ? 'AT+SBDWT=' + state.message : 'AT+SBDD0'` (the empty
string is falsy, so an empty payload issues the mailbox-check form). -/
def sendMessageCommand (message : String) : String :=
  if message = "" then "AT+SBDD0" else "AT+SBDWT=" ++ message

/-- `mailboxCheck()`: under the lock it only increments `pending`;
otherwise it calls `sendMessage({ message: '' })`, whose first action
is issuing the empty-payload command.  It never writes `lock`. -/
def mailboxCheck (s : MailboxState) : MailboxState × List MbEffect :=
  if s.lock ≠ 0 then ({ s with pending := s.pending + 1 }, [])
  else (s, [.issueCommand (sendMessageCommand "")])

/-- The synchronous prefix of `mailboxSend`: `c_attempt++`, and when the
attempt ceiling `maxAttempts` (default 10) is not exceeded it sets
`lock = 1` and proceeds into `sendBinaryMessage`; otherwise it reports
the attempts-exhausted failure. -/
def mailboxSendStart (s : MailboxState) : MailboxState × List MbEffect :=
  let s1 := { s with c_attempt := s.c_attempt + 1 }
  if s1.c_attempt ≤ 10 then ({ s1 with lock := 1 }, [])
  else (s1, [.callbackErr "Failed to send. The maxAttempts of send requests has been reached."])

/-- The success branch of the completion handler `mailboxSend` passes to
`sendBinaryMessage`: with checks pending it schedules a follow-up
`sendMessage({message:''})` after 1000 ms and keeps the lock, otherwise
it releases the lock; either way the caller is called back with the
assigned sequence number. -/
def mailboxSendOnSuccess (s : MailboxState) (momsn : Nat) : MailboxState × List MbEffect :=
  if s.pending > 0 then (s, [.scheduleCheck 1000, .callbackOk momsn])
  else ({ s with lock := 0 }, [.callbackOk momsn])

/-- C5: while the lock is held, each `mailboxCheck()` call increments
the pending counter by one and issues no command — two calls take the
counter up by two with zero commands — and when the in-flight cycle
completes, a follow-up empty-payload check is scheduled after the fixed
1000 ms delay if the counter is positive, while the lock is released
otherwise. -/
theorem mailbox_single_flight_coalesce (s t u : MailboxState) (m : Nat)
    (hs : s.lock ≠ 0) (ht : 0 < t.pending) (hu : u.pending = 0) :
    mailboxCheck s = ({ s with pending := s.pending + 1 }, []) ∧
    mailboxCheck { s with pending := s.pending + 1 } =
      ({ s with pending := s.pending + 2 }, []) ∧
    mailboxSendOnSuccess t m = (t, [.scheduleCheck 1000, .callbackOk m]) ∧
    mailboxSendOnSuccess u m = ({ u with lock := 0 }, [.callbackOk m]) := by
  refine ⟨?_, ?_, ?_, ?_⟩
  · simp [mailboxCheck, hs]
  · simp only [mailboxCheck]
    rw [if_pos (by simpa using hs)]
  · simp [mailboxSendOnSuccess, ht]
  · simp [mailboxSendOnSuccess, hu]

/-- Witness for `mailbox_single_flight_coalesce` from a locked state
with no pending checks. -/
theorem mailbox_single_flight_coalesce_witness :
    mailboxCheck ⟨1, 0, 1⟩ = (⟨1, 1, 1⟩, []) ∧
    mailboxCheck ⟨1, 1, 1⟩ = (⟨1, 2, 1⟩, []) ∧
    mailboxSendOnSuccess ⟨1, 2, 1⟩ 7 = (⟨1, 2, 1⟩, [.scheduleCheck 1000, .callbackOk 7]) ∧
    mailboxSendOnSuccess ⟨1, 0, 1⟩ 7 = (⟨0, 0, 1⟩, [.callbackOk 7]) :=
  mailbox_single_flight_coalesce ⟨1, 0, 1⟩ ⟨1, 2, 1⟩ ⟨1, 0, 1⟩ 7
    (by decide) (by decide) (by decide)

/-- C10: `mailboxCheck()` never modifies the lock; with the lock free it
issues the empty-payload send command without acquiring the lock, so a
second call while still unlocked issues a command again instead of
being coalesced; only `mailboxSend` acquires the lock (when under the
attempt ceiling). -/
theorem mailboxCheck_preserves_lock (s t : MailboxState)
    (ht : t.lock = 0) (hatt : t.c_attempt + 1 ≤ 10) :
    (mailboxCheck s).1.lock = s.lock ∧
    mailboxCheck t = (t, [.issueCommand "AT+SBDD0"]) ∧
    mailboxCheck (mailboxCheck t).1 = (t, [.issueCommand "AT+SBDD0"]) ∧
    mailboxSendStart t = ({ t with c_attempt := t.c_attempt + 1, lock := 1 }, []) := by
  have h2 : mailboxCheck t = (t, [.issueCommand "AT+SBDD0"]) := by
    simp [mailboxCheck, ht, sendMessageCommand]
  refine ⟨?_, h2, ?_, ?_⟩
  · by_cases hl : s.lock ≠ 0 <;> simp [mailboxCheck, hl]
  · rw [h2]
    exact h2
  · simp [mailboxSendStart, hatt]

/-- Witness for `mailboxCheck_preserves_lock` on an idle, unlocked
mailbox. -/
theorem mailboxCheck_preserves_lock_witness :
    (mailboxCheck ⟨1, 0, 0⟩).1.lock = 1 ∧
    mailboxCheck ⟨0, 0, 0⟩ = (⟨0, 0, 0⟩, [.issueCommand "AT+SBDD0"]) ∧
    mailboxCheck (mailboxCheck ⟨0, 0, 0⟩).1 = (⟨0, 0, 0⟩, [.issueCommand "AT+SBDD0"]) ∧
    mailboxSendStart ⟨0, 0, 0⟩ = (⟨1, 0, 1⟩, []) :=
  mailboxCheck_preserves_lock ⟨1, 0, 0⟩ ⟨0, 0, 0⟩ (by decide) (by decide)

end IridiumSBD
